import Mathlib

/-!
Shallow embedding of `src/github_pr_stats.py` (github_pr_stats).

Modelling conventions:

* Python `datetime` values are modelled by `DT`: `wall` is the naive
  wall-clock reading in whole seconds, and `tz` is the UTC-offset in
  seconds (`some 0` for `+00:00`), or `none` for a naive datetime.
  ISO-8601 timestamp strings are modelled already parsed: the program's
  `iso_to_dt` first rewrites a trailing "Z" into "+00:00" and then calls
  `datetime.fromisoformat`, so a trailing "Z" appears here as
  `tz = some 0`, an explicit offset as `some o`, and a string carrying no
  timezone designator as `tz = none`.  Python comparison and subtraction
  of datetimes raise `TypeError` on a naive/aware mix, hence the
  `Except Unit` results of `dtLt`, `dtGt` and `dtSub`.
* The SQLite store (`github_pr_cache.db`) is modelled by `DB`: the
  `pull_requests` table as a list of `PRRow` and the `reviews` table as a
  list of `ReviewRow` in rowid (insertion) order.  `json.dumps`/`json.loads`
  round-tripping of a payload is modelled by storing the structured value
  itself in the `pr_data` / `review_data` column.
* Network calls (`fetch_all`) are modelled as oracles returning
  `Except Unit` values: `.error` stands for `raise_for_status` raising.
* Fractions of hours are modelled in `ℚ` (Python computes
  `total_seconds() / 3600` in floating point; over the integral second
  values considered here the two agree).
-/

attribute [local semireducible] Rat.mul Rat.inv Rat.add Rat.sub

/-- A parsed timestamp: naive wall-clock seconds plus an optional
UTC-offset in seconds (`none` = naive datetime). -/
structure DT where
  wall : Int
  tz : Option Int
deriving DecidableEq, Repr

/-- The UTC instant of an aware timestamp (for a naive one this is just
its wall-clock reading). -/
def DT.instant (d : DT) : Int := d.wall - d.tz.getD 0

/-- Python `<` on datetimes: naive/naive compares wall clocks, aware/aware
compares UTC instants, a mixed pair raises `TypeError`. -/
def dtLt : DT → DT → Except Unit Bool
  | ⟨w1, none⟩, ⟨w2, none⟩ => .ok (decide (w1 < w2))
  | ⟨w1, some o1⟩, ⟨w2, some o2⟩ => .ok (decide (w1 - o1 < w2 - o2))
  | _, _ => .error ()

/-- Python `>` on datetimes, with the same naive/aware rules as `dtLt`. -/
def dtGt : DT → DT → Except Unit Bool
  | ⟨w1, none⟩, ⟨w2, none⟩ => .ok (decide (w1 > w2))
  | ⟨w1, some o1⟩, ⟨w2, some o2⟩ => .ok (decide (w1 - o1 > w2 - o2))
  | _, _ => .error ()

/-- Python datetime subtraction in seconds (`(a - b).total_seconds()`):
defined on naive/naive and aware/aware pairs, `TypeError` on a mix. -/
def dtSub : DT → DT → Except Unit Int
  | ⟨w1, none⟩, ⟨w2, none⟩ => .ok (w1 - w2)
  | ⟨w1, some o1⟩, ⟨w2, some o2⟩ => .ok ((w1 - o1) - (w2 - o2))
  | _, _ => .error ()

/-- `if dt.tzinfo is None: dt = dt.replace(tzinfo=datetime.timezone.utc)`
(lines 201-202 and 206-207 of the source): a naive bound becomes UTC. -/
def normTz (d : DT) : DT := if d.tz = none then { d with tz := some 0 } else d

/-- A pull request as fetched from the remote API.  `extra` stands for the
remainder of the raw JSON payload beyond the typed fields. -/
structure PR where
  number : Nat
  title : String
  state : String
  created_at : DT
  updated_at : DT
  extra : String
deriving DecidableEq, Repr

/-- A review as fetched from the remote API.  `submitted_at = none` models
a pending review whose payload has no "submitted_at" key (or a falsy one,
which `r.get("submitted_at")` treats identically). -/
structure Review where
  user_login : String
  submitted_at : Option DT
  extra : String
deriving DecidableEq, Repr

/-- A row of the `pull_requests` table (primary key `pr_number`;
`pr_data` holds the full JSON payload). -/
structure PRRow where
  pr_number : Nat
  title : String
  state : String
  created_at : DT
  updated_at : DT
  pr_data : PR
  cached_at : DT
deriving DecidableEq, Repr

/-- A row of the `reviews` table (AUTOINCREMENT surrogate key modelled by
list position; `review_data` holds the full JSON payload). -/
structure ReviewRow where
  pr_number : Nat
  review_data : Review
  cached_at : DT
deriving DecidableEq, Repr

/-- The SQLite database: both tables, rows in rowid order. -/
structure DB where
  prRows : List PRRow
  reviewRows : List ReviewRow
deriving DecidableEq, Repr

/-- The row written for a PR by `save_pr_to_db`. -/
def mkPRRow (pr : PR) (now : DT) : PRRow :=
  ⟨pr.number, pr.title, pr.state, pr.created_at, pr.updated_at, pr, now⟩

/-- `save_pr_to_db` (lines 80-100): `INSERT OR REPLACE` keyed on the
primary key `pr_number` drops any existing row for that number and
inserts the new one. -/
def save_pr_to_db (db : DB) (pr : PR) (now : DT) : DB :=
  { db with prRows :=
      db.prRows.filter (fun r => r.pr_number != pr.number) ++ [mkPRRow pr now] }

/-- `save_reviews_to_db` (lines 103-123): delete all rows for `pr_number`,
then insert the supplied reviews in order (fresh AUTOINCREMENT ids place
them after every surviving row). -/
def save_reviews_to_db (db : DB) (pr_number : Nat) (reviews : List Review)
    (now : DT) : DB :=
  { db with reviewRows :=
      db.reviewRows.filter (fun r => r.pr_number != pr_number)
        ++ reviews.map (fun rv => ⟨pr_number, rv, now⟩) }

/-- `get_pr_from_db` (lines 126-141): `fetchone` on
`SELECT pr_data FROM pull_requests WHERE pr_number = ?`. -/
def get_pr_from_db (db : DB) (pr_number : Nat) : Option PR :=
  (db.prRows.find? (fun r => r.pr_number == pr_number)).map (fun r => r.pr_data)

/-- `get_reviews_from_db` (lines 144-157): all `review_data` payloads whose
row matches `pr_number`, in rowid order. -/
def get_reviews_from_db (db : DB) (pr_number : Nat) : List Review :=
  (db.reviewRows.filter (fun r => r.pr_number == pr_number)).map
    (fun r => r.review_data)

/-- The check `if from_dt and created_at < from_dt: continue` followed by
`if to_dt and created_at > to_dt: continue` (lines 236-239), returning
whether the PR is kept; a naive/aware comparison propagates the error. -/
def prPasses (fromDt toDt : Option DT) (c : DT) : Except Unit Bool :=
  match fromDt with
  | some f =>
    match dtLt c f with
    | .error e => .error e
    | .ok true => .ok false
    | .ok false =>
      match toDt with
      | some t =>
        match dtGt c t with
        | .error e => .error e
        | .ok b => .ok (!b)
      | none => .ok true
  | none =>
    match toDt with
    | some t =>
      match dtGt c t with
      | .error e => .error e
      | .ok b => .ok (!b)
    | none => .ok true

/-- The filtering loop of lines 232-241, building `filtered_prs` in order. -/
def filterLoop (fromDt toDt : Option DT) : List PR → Except Unit (List PR)
  | [] => .ok []
  | pr :: rest =>
    match prPasses fromDt toDt pr.created_at with
    | .error e => .error e
    | .ok b =>
      match filterLoop fromDt toDt rest with
      | .error e => .error e
      | .ok tail => .ok (if b then pr :: tail else tail)

/-- The parsed-and-normalized `from_dt` of lines 199-202. -/
def effFrom (from_date : Option DT) : Option DT := from_date.map normTz

/-- The parsed-and-normalized `to_dt` of lines 204-210: an explicit bound
is normalized; with only `from_date` given it defaults to `now`
(`datetime.datetime.now(datetime.timezone.utc)`). -/
def effTo (from_date to_date : Option DT) (now : DT) : Option DT :=
  match to_date with
  | some t => some (normTz t)
  | none => if from_date.isSome then some now else none

/-- The whole date-filtering phase of `get_stats` (lines 195-244):
normalize the bounds, then filter only when at least one bound is set. -/
def applyDateFilter (from_date to_date : Option DT) (now : DT)
    (prs : List PR) : Except Unit (List PR) :=
  let fromDt := effFrom from_date
  let toDt := effTo from_date to_date now
  if fromDt.isSome || toDt.isSome then filterLoop fromDt toDt prs else .ok prs

/-- The sort key order of line 284, `key=lambda r: r.get("submitted_at") or ""`:
a missing timestamp becomes the empty string and sorts before every
timestamp string; two present timestamps (in the API's uniform ISO-8601
layout) compare as their wall-clock readings. -/
def optKeyLe : Option DT → Option DT → Bool
  | none, _ => true
  | some _, none => false
  | some a, some b => decide (a.wall ≤ b.wall)

/-- Comparison of two reviews by their sort key. -/
def reviewLe (a b : Review) : Bool := optKeyLe a.submitted_at b.submitted_at

/-- The sort-key order as a decidable relation, for `List.insertionSort`.
Python's `sorted` is a stable sort; over a total preorder every stable
sort yields the same list, so `sorted(reviews, key=...)` is modelled by
the (stable, structurally recursive) insertion sort under this order. -/
def reviewRel : Review → Review → Prop := fun a b => reviewLe a b = true

instance : DecidableRel reviewRel := fun a b => Bool.decEq (reviewLe a b) true

/-- The per-PR metric record appended to `pr_metrics`
(lines 274-280 and 298-304). -/
structure PRMetric where
  pr_number : Nat
  title : String
  created_at : DT
  first_review_at : Option DT
  time_to_first_review_hours : Option ℚ
deriving DecidableEq, Repr

/-- The reviewer loop of lines 307-315 over the sorted reviews: skip
reviews without a submission timestamp, otherwise record
`(login, (submitted - created) seconds / 3600)`. -/
def reviewerContribs (created : DT) : List Review → Except Unit (List (String × ℚ))
  | [] => .ok []
  | r :: rest =>
    match r.submitted_at with
    | none => reviewerContribs created rest
    | some s =>
      match dtSub s created with
      | .error e => .error e
      | .ok d =>
        match reviewerContribs created rest with
        | .error e => .error e
        | .ok tail => .ok ((r.user_login, (d : ℚ) / 3600) :: tail)

/-- The metric with null review fields (lines 274-280 and 293-295). -/
def nullMetric (pr : PR) : PRMetric :=
  { pr_number := pr.number, title := pr.title, created_at := pr.created_at,
    first_review_at := none, time_to_first_review_hours := none }

/-- The per-PR aggregation body of lines 273-315: with no reviews, append
the null metric and skip the rest (`continue`); otherwise sort by
submission key, take the first review carrying a timestamp, derive the
latency fields, and run the reviewer loop.  Returns the appended metric
and this PR's reviewer contributions in accumulation order. -/
def processPR (pr : PR) (reviews : List Review) :
    Except Unit (PRMetric × List (String × ℚ)) :=
  if reviews.isEmpty then
    .ok (nullMetric pr, [])
  else
    let reviews_sorted := reviews.insertionSort reviewRel
    match (reviews_sorted.find? (fun r => r.submitted_at.isSome)).bind
        (fun r => r.submitted_at) with
    | some fra =>
      match dtSub fra pr.created_at with
      | .error e => .error e
      | .ok delta =>
        match reviewerContribs pr.created_at reviews_sorted with
        | .error e => .error e
        | .ok contribs =>
          .ok ({ pr_number := pr.number, title := pr.title,
                 created_at := pr.created_at, first_review_at := some fra,
                 time_to_first_review_hours := some ((delta : ℚ) / 3600) },
               contribs)
    | none =>
      match reviewerContribs pr.created_at reviews_sorted with
      | .error e => .error e
      | .ok contribs => .ok (nullMetric pr, contribs)

/-- The accumulated latency list of one reviewer
(`reviewer_metrics[reviewer]`, in accumulation order). -/
def timesFor (contribs : List (String × ℚ)) (who : String) : List ℚ :=
  (contribs.filter (fun e => e.1 == who)).map Prod.snd

/-- The printed per-reviewer statistics of lines 330-338. -/
structure RevStat where
  average : ℚ
  fastest : ℚ
  slowest : ℚ
  count : Nat
deriving DecidableEq, Repr

/-- `sum(times)/len(times)`, `min(times)`, `max(times)`, `len(times)` for a
reviewer; `none` for a reviewer with no accumulated entry (such a key
never exists in the defaultdict, so it is never printed). -/
def statsOf : List ℚ → Option RevStat
  | [] => none
  | t :: ts =>
    some { average := (t :: ts).sum / (t :: ts).length,
           fastest := ts.foldl min t,
           slowest := ts.foldl max t,
           count := (t :: ts).length }

/-- The review-acquisition block of lines 258-271 for one PR: a closed PR
uses cached reviews when the cache has any, and otherwise (closed-and-empty
or non-closed) fetches from the remote and writes back through
`save_reviews_to_db`.  The `Bool` records whether the remote was called. -/
def getReviewsStep (fetch : Nat → Except Unit (List Review)) (now : DT)
    (db : DB) (pr : PR) : Except Unit (List Review × DB × Bool) :=
  if pr.state == "closed" then
    let cached := get_reviews_from_db db pr.number
    if cached.isEmpty then
      match fetch pr.number with
      | .error e => .error e
      | .ok rs => .ok (rs, save_reviews_to_db db pr.number rs now, true)
    else
      .ok (cached, db, false)
  else
    match fetch pr.number with
    | .error e => .error e
    | .ok rs => .ok (rs, save_reviews_to_db db pr.number rs now, true)

/-- The main loop of lines 249-315 over the filtered PRs, threading the
store state and accumulating `pr_metrics` and the reviewer entries; on an
error the store state reached so far is kept and the run aborts. -/
def reviewLoop (fetch : Nat → Except Unit (List Review)) (now : DT) :
    List PR → DB → List PRMetric → List (String × ℚ) →
    DB × Except Unit (List PRMetric × List (String × ℚ))
  | [], db, ms, cs => (db, .ok (ms, cs))
  | pr :: rest, db, ms, cs =>
    match getReviewsStep fetch now db pr with
    | .error e => (db, .error e)
    | .ok (reviews, db2, _) =>
      match processPR pr reviews with
      | .error e => (db2, .error e)
      | .ok (m, contribs) =>
        reviewLoop fetch now rest db2 (ms ++ [m]) (cs ++ contribs)

/-- The caching pass of lines 227-228: upsert every fetched PR in order. -/
def upsertAll (db : DB) (prs : List PR) (now : DT) : DB :=
  prs.foldl (fun d p => save_pr_to_db d p now) db

/-- The state transition of one iteration of the main loop, as far as the
store is concerned: the review write of `getReviewsStep` when it
succeeds, the unchanged store when it fails. -/
def stepDB (fetch : Nat → Except Unit (List Review)) (now : DT)
    (db : DB) (pr : PR) : DB :=
  match getReviewsStep fetch now db pr with
  | .ok (_, db2, _) => db2
  | .error _ => db

/-- The `get_stats(from_date, to_date)` pipeline (lines 184-315) over
already-parsed date bounds: fetch the PR list (`fetchPRs` models
`fetch_all`, failing like `raise_for_status`), upsert every PR, apply the
date filter, then run the review/aggregation loop.  Returns the final
store state and either the run's outputs (`pr_metrics` and the reviewer
entries) or the propagated error. -/
def get_stats_model (fetchPRs : Except Unit (List PR))
    (fetchR : Nat → Except Unit (List Review))
    (from_date to_date : Option DT) (now : DT) (db0 : DB) :
    DB × Except Unit (List PRMetric × List (String × ℚ)) :=
  match fetchPRs with
  | .error e => (db0, .error e)
  | .ok all_prs =>
    let db1 := upsertAll db0 all_prs now
    match applyDateFilter from_date to_date now all_prs with
    | .error e => (db1, .error e)
    | .ok filtered => reviewLoop fetchR now filtered db1 [] []

/-- Structural decidable equality for `Except` results, so concrete runs
can be checked by `decide`. -/
instance {ε α : Type} [DecidableEq ε] [DecidableEq α] : DecidableEq (Except ε α)
  | .ok a, .ok b =>
    match h : decide (a = b) with
    | true => isTrue (by simp_all)
    | false => isFalse (by simp_all)
  | .ok _, .error _ => isFalse (by simp)
  | .error _, .ok _ => isFalse (by simp)
  | .error a, .error b =>
    match h : decide (a = b) with
    | true => isTrue (by simp_all)
    | false => isFalse (by simp_all)

/-! ## Concrete scenario values (used by witnesses and counterexamples) -/

/-- 2024-01-01T00:00:00Z in epoch seconds. -/
def dtCreated : DT := ⟨1704067200, some 0⟩

/-- 2024-01-01T05:00:00Z. -/
def dtAliceAt : DT := ⟨1704085200, some 0⟩

/-- 2024-01-01T10:00:00Z. -/
def dtBobAt : DT := ⟨1704103200, some 0⟩

/-- Review by "alice" submitted at 2024-01-01T05:00:00Z. -/
def revAlice : Review := ⟨"alice", some dtAliceAt, ""⟩

/-- Review by "bob" submitted at 2024-01-01T10:00:00Z. -/
def revBob : Review := ⟨"bob", some dtBobAt, ""⟩

/-- A pending review carrying no submission timestamp. -/
def revPending : Review := ⟨"carol", none, ""⟩

/-- PR #1 of the aggregation scenario, created at 2024-01-01T00:00:00Z. -/
def prOne : PR := ⟨1, "PR one", "closed", dtCreated, dtCreated, ""⟩

/-- An arbitrary aware wall-clock instant. -/
def dtZero : DT := ⟨0, some 0⟩

/-- A closed PR used by the freshness-policy witnesses. -/
def prClosedW : PR := ⟨10, "closed pr", "closed", dtCreated, dtCreated, ""⟩

/-- An open PR used by the freshness-policy witnesses. -/
def prOpenW : PR := ⟨11, "open pr", "open", dtCreated, dtCreated, ""⟩

/-- A store whose `reviews` table caches one review for PR #10. -/
def dbCachedW : DB := ⟨[], [⟨10, revPending, dtZero⟩]⟩

/-- The empty store. -/
def emptyDB : DB := ⟨[], []⟩

/-- A remote oracle that always succeeds with one pending review. -/
def fetchConst : Nat → Except Unit (List Review) := fun _ => .ok [revPending]

/-- Open PRs for the mid-run-failure witness. -/
def prOpen1 : PR := ⟨21, "o1", "open", dtCreated, dtCreated, ""⟩

/-- Second open PR for the mid-run-failure witness. -/
def prOpen2 : PR := ⟨22, "o2", "open", dtCreated, dtCreated, ""⟩

/-- A remote oracle whose review fetch fails for PR #22 only. -/
def fetchFail2 : Nat → Except Unit (List Review) :=
  fun n => if n == 22 then .error () else .ok [revPending]

/-- A PR whose payload `created_at` carries no timezone designator. -/
def prNaive : PR := ⟨7, "naive", "open", ⟨0, none⟩, ⟨0, none⟩, ""⟩

/-- The same PR with `created_at` read as UTC. -/
def prNaiveAsUtc : PR := ⟨7, "naive", "open", ⟨0, some 0⟩, ⟨0, some 0⟩, ""⟩

/-- Date-filter witness PRs created at aware instants 50, 100 and 250. -/
def prEarly : PR := ⟨31, "early", "open", ⟨50, some 0⟩, ⟨50, some 0⟩, ""⟩

/-- Date-filter witness PR created at instant 100. -/
def prMid : PR := ⟨32, "mid", "open", ⟨100, some 0⟩, ⟨100, some 0⟩, ""⟩

/-- Date-filter witness PR created at instant 250. -/
def prLate : PR := ⟨33, "late", "open", ⟨250, some 0⟩, ⟨250, some 0⟩, ""⟩

/-- The spec's date-window predicate on an instant: `>= from` when `from`
is given and `<= to` when `to` is given, both bounds inclusive. -/
def withinBounds (fromDt toDt : Option DT) (c : DT) : Bool :=
  (match fromDt with
   | some f => decide (f.instant ≤ c.instant)
   | none => true)
  && (match toDt with
      | some t => decide (c.instant ≤ t.instant)
      | none => true)

/-- The spec's date-window predicate on a PR: its `created_at` lies within
the inclusive bounds. -/
def passesBounds (fromDt toDt : Option DT) (pr : PR) : Bool :=
  withinBounds fromDt toDt pr.created_at

/-! ## Store lemmas -/

/-- Rows deleted by key are invisible to a read of that key. -/
theorem reviewRows_filter_ne_then_eq (l : List ReviewRow) (n : Nat) :
    (l.filter (fun r => r.pr_number != n)).filter (fun r => r.pr_number == n)
      = [] := by
  simp only [List.filter_filter]
  have h : ∀ r : ReviewRow, ((r.pr_number == n) && (r.pr_number != n)) = false := by
    intro r
    cases hb : r.pr_number == n <;> simp [bne, hb]
  simp [h]

/-- Freshly inserted rows for a key all match a read of that key. -/
theorem reviewRows_filter_inserted (rs : List Review) (n : Nat) (now : DT) :
    ((rs.map (fun rv => (⟨n, rv, now⟩ : ReviewRow))).filter
        (fun r => r.pr_number == n)) = rs.map (fun rv => ⟨n, rv, now⟩) := by
  induction rs with
  | nil => rfl
  | cons r rest ih => simp [List.filter, ih]

/-- C4.  `replace_reviews` then `get_reviews`: after
`save_reviews_to_db db n rs`, `get_reviews_from_db n` returns exactly the
elements of `rs` (here even in insertion order, hence also as a set), with
no row of any earlier write for `n` surviving; in particular
`rs = []` leaves `n` with no reviews. -/
theorem replace_reviews_reads_back (db : DB) (n : Nat) (rs : List Review)
    (now : DT) :
    get_reviews_from_db (save_reviews_to_db db n rs now) n = rs := by
  simp only [get_reviews_from_db, save_reviews_to_db, List.filter_append,
    reviewRows_filter_ne_then_eq, reviewRows_filter_inserted, List.nil_append,
    List.map_map]
  have h : (fun r : ReviewRow => r.review_data) ∘ (fun rv => (⟨n, rv, now⟩ : ReviewRow))
      = id := rfl
  rw [h, List.map_id]

/-- C5.  Upsert leaves exactly one row for the identifier: whatever rows the
`pull_requests` table held before (any earlier sequence of upserts
included), after `save_pr_to_db db pr` the rows whose key is `pr.number`
are exactly the single row carrying the new payload. -/
theorem upsert_pr_single_row (db : DB) (pr : PR) (now : DT) :
    (save_pr_to_db db pr now).prRows.filter (fun r => r.pr_number == pr.number)
      = [mkPRRow pr now] := by
  simp only [save_pr_to_db, List.filter_append, List.filter_filter]
  have h : ∀ r : PRRow,
      ((r.pr_number == pr.number) && (r.pr_number != pr.number)) = false := by
    intro r
    cases hb : r.pr_number == pr.number <;> simp [bne, hb]
  simp [h, List.filter, mkPRRow]

/-- C9.  Round-trip through the cache: saving a fetched PR with
`save_pr_to_db` and reading it back with `get_pr_from_db` yields the very
value fetched, so every modeled field (identifier, title, state,
created_at, updated_at and the raw payload) reads back equal. -/
theorem pr_cache_round_trip (db : DB) (pr : PR) (now : DT) :
    get_pr_from_db (save_pr_to_db db pr now) pr.number = some pr := by
  simp only [get_pr_from_db, save_pr_to_db, List.find?_append]
  have h : (db.prRows.filter (fun r => r.pr_number != pr.number)).find?
      (fun r => r.pr_number == pr.number) = none := by
    rw [List.find?_eq_none]
    intro x hx
    have := List.of_mem_filter hx
    simp only [bne_iff_ne, ne_eq] at this
    simp [this]
  simp [h, List.find?, mkPRRow]

/-! ## Freshness policy -/

/-- C1.  The review-acquisition step of a `get_stats` run (applied by
`reviewLoop` to every PR surviving the date filter): a CLOSED PR with a
non-empty cached review set uses the cache and never calls the remote
(flag `false`, store untouched, conclusion independent of `fetch`); a
CLOSED PR with no cached reviews fetches from the remote and writes back
through the review-replace operation; an OPEN PR fetches from the remote
and writes back regardless of cache contents. -/
theorem freshness_policy (db : DB) (pr : PR)
    (fetch : Nat → Except Unit (List Review)) (now : DT) (rs : List Review) :
    (pr.state = "closed" → get_reviews_from_db db pr.number ≠ [] →
      getReviewsStep fetch now db pr
        = .ok (get_reviews_from_db db pr.number, db, false))
    ∧ (pr.state = "closed" → get_reviews_from_db db pr.number = [] →
        fetch pr.number = .ok rs →
        getReviewsStep fetch now db pr
          = .ok (rs, save_reviews_to_db db pr.number rs now, true))
    ∧ (pr.state = "open" → fetch pr.number = .ok rs →
        getReviewsStep fetch now db pr
          = .ok (rs, save_reviews_to_db db pr.number rs now, true)) := by
  refine ⟨?_, ?_, ?_⟩
  · intro hs hne
    have hb : (pr.state == "closed") = true := by simp [hs]
    have hemp : (get_reviews_from_db db pr.number).isEmpty = false := by
      cases hc : get_reviews_from_db db pr.number with
      | nil => exact absurd hc hne
      | cons a l => simp [hc]
    simp [getReviewsStep, hb, hemp]
  · intro hs hnil hf
    have hb : (pr.state == "closed") = true := by simp [hs]
    simp [getReviewsStep, hb, hnil, hf]
  · intro hs hf
    have hb : (pr.state == "closed") = false := by simp [hs]
    simp [getReviewsStep, hb, hf]

/-- Witness for C1: all three policy branches at concrete inputs. -/
theorem freshness_policy_witness :
    getReviewsStep fetchConst dtZero dbCachedW prClosedW
      = .ok ([revPending], dbCachedW, false)
    ∧ getReviewsStep fetchConst dtZero emptyDB prClosedW
      = .ok ([revPending], save_reviews_to_db emptyDB 10 [revPending] dtZero, true)
    ∧ getReviewsStep fetchConst dtZero dbCachedW prOpenW
      = .ok ([revPending], save_reviews_to_db dbCachedW 11 [revPending] dtZero, true) :=
  ⟨(freshness_policy dbCachedW prClosedW fetchConst dtZero [revPending]).1
      rfl (by decide),
   (freshness_policy emptyDB prClosedW fetchConst dtZero [revPending]).2.1
      rfl (by decide) rfl,
   (freshness_policy dbCachedW prOpenW fetchConst dtZero [revPending]).2.2
      rfl rfl⟩

/-! ## Aggregation lemmas -/

/-- The sort-key order is reflexive. -/
theorem reviewRel_refl (a : Review) : reviewRel a a := by
  cases h : a.submitted_at <;> simp [reviewRel, reviewLe, optKeyLe, h]

/-- The sort-key order is total. -/
theorem reviewRel_total (a b : Review) : reviewRel a b ∨ reviewRel b a := by
  cases ha : a.submitted_at <;> cases hb : b.submitted_at <;>
    simp [reviewRel, reviewLe, optKeyLe, ha, hb]
  exact Int.le_total _ _

/-- The sort-key order is transitive. -/
theorem reviewRel_trans (a b c : Review) :
    reviewRel a b → reviewRel b c → reviewRel a c := by
  cases ha : a.submitted_at <;> cases hb : b.submitted_at <;>
      cases hc : c.submitted_at <;>
    simp [reviewRel, reviewLe, optKeyLe, ha, hb, hc]
  omega

instance : IsTotal Review reviewRel := ⟨reviewRel_total⟩

instance : IsTrans Review reviewRel := ⟨reviewRel_trans⟩

/-- In a sorted list, the first element satisfying a predicate is below
every element satisfying it. -/
theorem find?_min_of_pairwise (p : Review → Bool) :
    ∀ (l : List Review), l.Pairwise reviewRel →
      ∀ fr, l.find? p = some fr → ∀ r ∈ l, p r → reviewRel fr r := by
  intro l
  induction l with
  | nil => intro _ fr hf; simp at hf
  | cons x xs ih =>
    intro hp fr hf r hr hpr
    by_cases hx : p x
    · rw [List.find?_cons_of_pos _ hx] at hf
      cases hf
      rcases List.mem_cons.1 hr with h | h
      · subst h; exact reviewRel_refl r
      · exact (List.pairwise_cons.1 hp).1 r h
    · rw [List.find?_cons_of_neg _ (by simpa using hx)] at hf
      rcases List.mem_cons.1 hr with h | h
      · subst h; exact absurd hpr hx
      · exact ih (List.pairwise_cons.1 hp).2 fr hf r h hpr

/-- A review list with no submitted timestamp contributes nothing to any
reviewer. -/
theorem reviewerContribs_all_none (created : DT) :
    ∀ (l : List Review), (∀ r ∈ l, r.submitted_at = none) →
      reviewerContribs created l = .ok [] := by
  intro l
  induction l with
  | nil => intro _; rfl
  | cons x xs ih =>
    intro h
    have hx : x.submitted_at = none := h x (List.mem_cons_self x xs)
    simp [reviewerContribs, hx, ih (fun r hr => h r (List.mem_cons_of_mem x hr))]

/-- C6.  A PR none of whose reviews carry a submission timestamp (zero
reviews, or only pending reviews) still produces its per-PR output row,
with `first_review_at = null` and `time_to_first_review_hours = null`,
and accumulates nothing into any reviewer's statistics — so a reviewer
with zero timestamped reviews never appears in the reviewer output. -/
theorem no_timestamp_null_metrics (pr : PR) (reviews : List Review)
    (h : ∀ r ∈ reviews, r.submitted_at = none) :
    processPR pr reviews
      = .ok ({ pr_number := pr.number, title := pr.title,
               created_at := pr.created_at, first_review_at := none,
               time_to_first_review_hours := none }, []) := by
  by_cases he : reviews.isEmpty
  · simp [processPR, he, nullMetric]
  · have hsorted : ∀ r ∈ reviews.insertionSort reviewRel, r.submitted_at = none := by
      intro r hr
      exact h r ((List.mem_insertionSort reviewRel).1 hr)
    have hfind : (reviews.insertionSort reviewRel).find?
        (fun r => r.submitted_at.isSome) = none := by
      rw [List.find?_eq_none]
      intro x hx
      simp [hsorted x hx]
    simp [processPR, he, hfind,
      reviewerContribs_all_none pr.created_at _ hsorted, nullMetric]

/-- Witness for C6: one pending review yields the null row and no
reviewer entries. -/
theorem no_timestamp_null_metrics_witness :
    processPR prOpenW [revPending]
      = .ok ({ pr_number := 11, title := "open pr", created_at := dtCreated,
               first_review_at := none,
               time_to_first_review_hours := none }, []) :=
  no_timestamp_null_metrics prOpenW [revPending] (by decide)

/-! ## Date filter -/

/-- Bound normalization always yields an aware timestamp. -/
theorem normTz_tz_isSome (d : DT) : (normTz d).tz.isSome := by
  cases h : d.tz <;> simp [normTz, h]

/-- On an aware timestamp with aware bounds the pass/skip checks of the
filter loop compute the inclusive-window predicate. -/
theorem prPasses_aware (fromDt toDt : Option DT) (cw oc : Int)
    (hf : ∀ x ∈ fromDt, x.tz.isSome) (ht : ∀ x ∈ toDt, x.tz.isSome) :
    prPasses fromDt toDt ⟨cw, some oc⟩
      = .ok (withinBounds fromDt toDt ⟨cw, some oc⟩) := by
  cases fromDt with
  | none =>
    cases toDt with
    | none => rfl
    | some t =>
      obtain ⟨tw, ttz⟩ := t
      have hts : ttz.isSome := ht ⟨tw, ttz⟩ rfl
      cases ttz with
      | none => simp at hts
      | some ot =>
        by_cases h : cw - oc > tw - ot
        · simp [prPasses, dtGt, withinBounds, DT.instant, h, not_le.2 h]
        · simp [prPasses, dtGt, withinBounds, DT.instant, h, le_of_not_lt h]
  | some f =>
    obtain ⟨fw, ftz⟩ := f
    have hfs : ftz.isSome := hf ⟨fw, ftz⟩ rfl
    cases ftz with
    | none => simp at hfs
    | some og =>
      by_cases hlo : cw - oc < fw - og
      · simp [prPasses, dtLt, withinBounds, DT.instant, hlo, not_le.2 hlo]
      · cases toDt with
        | none =>
          simp [prPasses, dtLt, withinBounds, DT.instant, hlo, le_of_not_lt hlo]
        | some t =>
          obtain ⟨tw, ttz⟩ := t
          have hts : ttz.isSome := ht ⟨tw, ttz⟩ rfl
          cases ttz with
          | none => simp at hts
          | some ot =>
            by_cases hhi : cw - oc > tw - ot
            · simp [prPasses, dtLt, dtGt, withinBounds, DT.instant, hlo, hhi,
                le_of_not_lt hlo, not_le.2 hhi]
            · simp [prPasses, dtLt, dtGt, withinBounds, DT.instant, hlo, hhi,
                le_of_not_lt hlo, le_of_not_lt hhi]

/-- With aware bounds and aware PR timestamps the filtering loop computes
the order-preserving subsequence within the window. -/
theorem filterLoop_aware (fromDt toDt : Option DT) :
    ∀ (prs : List PR), (∀ x ∈ fromDt, x.tz.isSome) →
      (∀ x ∈ toDt, x.tz.isSome) →
      (∀ pr ∈ prs, pr.created_at.tz.isSome) →
      filterLoop fromDt toDt prs = .ok (prs.filter (passesBounds fromDt toDt)) := by
  intro prs
  induction prs with
  | nil => intro _ _ _; rfl
  | cons pr rest ih =>
    intro hf ht hprs
    have hc : pr.created_at.tz.isSome := hprs pr (List.mem_cons_self pr rest)
    rcases hcr : pr.created_at with ⟨cw, ctz⟩
    rw [hcr] at hc
    cases ctz with
    | none => simp at hc
    | some oc =>
      have htail := ih hf ht (fun p hp => hprs p (List.mem_cons_of_mem pr hp))
      rw [filterLoop, hcr, prPasses_aware fromDt toDt cw oc hf ht, htail,
        List.filter_cons]
      have hpb : passesBounds fromDt toDt pr
          = withinBounds fromDt toDt ⟨cw, some oc⟩ := by
        rw [passesBounds, hcr]
      rw [hpb]

/-- C3.  The date filter returns the order-preserving subsequence of PRs
whose `created_at` lies within the inclusive window: `created_at >= from`
when `from` is given, `created_at <= to` when `to` is given; with `from`
given and `to` omitted the upper bound is the wall-clock `now` taken at
filter time, and with neither bound every PR passes unchanged (the
filtered list is then the whole input). -/
theorem date_filter_spec (from_date to_date : Option DT) (now : DT)
    (prs : List PR) (hnow : now.tz.isSome)
    (hprs : ∀ pr ∈ prs, pr.created_at.tz.isSome) :
    applyDateFilter from_date to_date now prs
      = .ok (prs.filter
          (passesBounds (effFrom from_date) (effTo from_date to_date now))) := by
  have hf : ∀ x ∈ effFrom from_date, x.tz.isSome := by
    intro x hx
    cases from_date with
    | none => simp [effFrom] at hx
    | some d =>
      have hxe : normTz d = x := by simpa [effFrom] using hx
      rw [← hxe]
      exact normTz_tz_isSome d
  have ht : ∀ x ∈ effTo from_date to_date now, x.tz.isSome := by
    intro x hx
    cases to_date with
    | some d =>
      have hxe : normTz d = x := by simpa [effTo] using hx
      rw [← hxe]
      exact normTz_tz_isSome d
    | none =>
      cases hfd : from_date.isSome with
      | true =>
        have hxe : now = x := by simpa [effTo, hfd] using hx
        rw [← hxe]; exact hnow
      | false => simp [effTo, hfd] at hx
  by_cases hcond : ((effFrom from_date).isSome || (effTo from_date to_date now).isSome) = true
  · simp only [applyDateFilter, hcond, if_true]
    exact filterLoop_aware _ _ prs hf ht hprs
  · have hor : ¬((effFrom from_date).isSome = true
        ∨ (effTo from_date to_date now).isSome = true) := by
      rw [← Bool.or_eq_true]
      exact hcond
    have hfe : effFrom from_date = none := by
      cases h : effFrom from_date with
      | none => rfl
      | some d => exact absurd (Or.inl (by simp [h])) hor
    have hte : effTo from_date to_date now = none := by
      cases h : effTo from_date to_date now with
      | none => rfl
      | some d => exact absurd (Or.inr (by simp [h])) hor
    have hall : prs.filter (passesBounds (effFrom from_date)
        (effTo from_date to_date now)) = prs := by
      rw [List.filter_eq_self]
      intro a _
      simp [passesBounds, withinBounds, hfe, hte]
    rw [hall]
    simp [applyDateFilter, hfe, hte]

/-- Witness for C3: a naive lower bound 100 with omitted upper bound and
`now = 200` keeps exactly the PR created at 100 (boundary inclusive),
dropping those created at 50 and 250. -/
theorem date_filter_spec_witness :
    applyDateFilter (some ⟨100, none⟩) none ⟨200, some 0⟩
        [prEarly, prMid, prLate] = .ok [prMid] :=
  (date_filter_spec (some ⟨100, none⟩) none ⟨200, some 0⟩
      [prEarly, prMid, prLate] (by decide) (by decide)).trans (by decide)

/-- C10.  An inverted range (`from` after `to`, both parsing) raises no
error: the run completes with `.ok`, the filter excludes every PR, the
outputs are empty, and the store receives exactly the PR upserts — the
conclusion does not depend on `fetchR`, so no review fetch is ever
consulted. -/
theorem inverted_range_no_error (f t now : DT) (db0 : DB) (prs : List PR)
    (fetchR : Nat → Except Unit (List Review))
    (hinv : (normTz t).instant < (normTz f).instant)
    (hprs : ∀ pr ∈ prs, pr.created_at.tz.isSome) :
    get_stats_model (.ok prs) fetchR (some f) (some t) now db0
      = (upsertAll db0 prs now, .ok ([], [])) := by
  have hf : ∀ x ∈ effFrom (some f), x.tz.isSome := by
    intro x hx
    have hxe : normTz f = x := by simpa [effFrom] using hx
    rw [← hxe]; exact normTz_tz_isSome f
  have ht : ∀ x ∈ effTo (some f) (some t) now, x.tz.isSome := by
    intro x hx
    have hxe : normTz t = x := by simpa [effTo] using hx
    rw [← hxe]; exact normTz_tz_isSome t
  have hloop := filterLoop_aware (effFrom (some f)) (effTo (some f) (some t) now)
    prs hf ht hprs
  have hnone : prs.filter (passesBounds (effFrom (some f))
      (effTo (some f) (some t) now)) = [] := by
    rw [List.filter_eq_nil_iff]
    intro a ha
    have hc : a.created_at.tz.isSome := hprs a ha
    rcases hca : a.created_at with ⟨cw, ctz⟩
    rw [hca] at hc
    cases ctz with
    | none => simp at hc
    | some oc =>
      have hpb : passesBounds (effFrom (some f)) (effTo (some f) (some t) now) a
          = withinBounds (some (normTz f)) (some (normTz t)) ⟨cw, some oc⟩ := by
        rw [passesBounds, hca]
        exact rfl
      rw [hpb]
      by_cases h1 : (normTz f).instant ≤ DT.instant ⟨cw, some oc⟩
      · have h2 : ¬(DT.instant ⟨cw, some oc⟩ ≤ (normTz t).instant) := by omega
        simp [withinBounds, h1, h2]
      · simp [withinBounds, h1]
  have hfilter : applyDateFilter (some f) (some t) now prs = .ok [] := by
    have hcond : ((effFrom (some f)).isSome
        || (effTo (some f) (some t) now).isSome) = true := by
      simp [effFrom]
    simp only [applyDateFilter, hcond, if_true]
    rw [hloop, hnone]
  simp [get_stats_model, hfilter, reviewLoop]

/-- Witness for C10: from = 100, to = 50, one PR created at 100, and a
review oracle that always fails — the run still succeeds with empty
outputs and only the upsert committed. -/
theorem inverted_range_no_error_witness :
    get_stats_model (.ok [prMid]) (fun _ => .error ()) (some ⟨100, some 0⟩)
        (some ⟨50, some 0⟩) dtZero emptyDB
      = (upsertAll emptyDB [prMid] dtZero, .ok ([], [])) :=
  inverted_range_no_error ⟨100, some 0⟩ ⟨50, some 0⟩ dtZero emptyDB [prMid]
    (fun _ => .error ()) (by decide) (by decide)

/-- C2.  Aggregation correctness.  Concretely: for PR #1 created at
2024-01-01T00:00:00Z with reviews by "alice" at 05:00Z and "bob" at
10:00Z, the per-PR output has `first_review_at` = 05:00Z and
`time_to_first_review_hours` = 5.0, and the reviewer statistics give
alice average/fastest/slowest 5.0 with count 1 and bob 10.0 with count 1.
In general: the first review is an earliest review carrying a submission
timestamp, and `time_to_first_review_hours` is
`(first_review_at - created_at)` in seconds divided by 3600. -/
theorem aggregation_correct :
    (processPR prOne [revAlice, revBob]
        = .ok ({ pr_number := 1, title := "PR one", created_at := dtCreated,
                 first_review_at := some dtAliceAt,
                 time_to_first_review_hours := some 5 },
               [("alice", 5), ("bob", 10)])
      ∧ statsOf (timesFor [("alice", 5), ("bob", 10)] "alice")
          = some ⟨5, 5, 5, 1⟩
      ∧ statsOf (timesFor [("alice", 5), ("bob", 10)] "bob")
          = some ⟨10, 10, 10, 1⟩)
    ∧ ∀ (pr : PR) (reviews : List Review) (m : PRMetric)
        (cs : List (String × ℚ)) (t0 : DT),
        pr.created_at.tz = some 0 →
        (∀ r ∈ reviews, ∀ t, r.submitted_at = some t → t.tz = some 0) →
        processPR pr reviews = .ok (m, cs) →
        m.first_review_at = some t0 →
        (∃ r ∈ reviews, r.submitted_at = some t0)
          ∧ (∀ r ∈ reviews, ∀ t, r.submitted_at = some t → t0.wall ≤ t.wall)
          ∧ m.time_to_first_review_hours
              = some (((t0.wall - pr.created_at.wall : Int) : ℚ) / 3600) := by
  refine ⟨⟨by decide, by decide, by decide⟩, ?_⟩
  intro pr reviews m cs t0 hctz hrtz hok hfra
  by_cases he : reviews.isEmpty
  · simp only [processPR, he, if_true] at hok
    simp only [Except.ok.injEq, Prod.mk.injEq] at hok
    obtain ⟨hm, hcs⟩ := hok
    rw [← hm] at hfra
    simp [nullMetric] at hfra
  · have he' : reviews.isEmpty = false := by simpa using he
    simp only [processPR, he', Bool.false_eq_true, if_false] at hok
    cases hbind : ((reviews.insertionSort reviewRel).find?
        (fun r => r.submitted_at.isSome)).bind (fun r => r.submitted_at) with
    | none =>
      simp only [hbind] at hok
      cases hcontrib : reviewerContribs pr.created_at
          (reviews.insertionSort reviewRel) with
      | error e => simp only [hcontrib] at hok; simp at hok
      | ok contribs =>
        simp only [hcontrib] at hok
        simp only [Except.ok.injEq, Prod.mk.injEq] at hok
        obtain ⟨hm, hcs⟩ := hok
        rw [← hm] at hfra
        simp [nullMetric] at hfra
    | some fra =>
      simp only [hbind] at hok
      cases hsub : dtSub fra pr.created_at with
      | error e => simp only [hsub] at hok; simp at hok
      | ok delta =>
        simp only [hsub] at hok
        cases hcontrib : reviewerContribs pr.created_at
            (reviews.insertionSort reviewRel) with
        | error e => simp only [hcontrib] at hok; simp at hok
        | ok contribs =>
          simp only [hcontrib] at hok
          simp only [Except.ok.injEq, Prod.mk.injEq] at hok
          obtain ⟨hm, hcs⟩ := hok
          have hfra2 : fra = t0 := by
            rw [← hm] at hfra
            simpa using hfra
          subst hfra2
          obtain ⟨fr, hfind, hfrsub⟩ := Option.bind_eq_some.mp hbind
          have hfrmem : fr ∈ reviews.insertionSort reviewRel :=
            List.mem_of_find?_eq_some hfind
          have hfrmem2 : fr ∈ reviews :=
            (List.mem_insertionSort reviewRel).1 hfrmem
          refine ⟨⟨fr, hfrmem2, hfrsub⟩, ?_, ?_⟩
          · intro r hr t hrt
            have hrs : r ∈ reviews.insertionSort reviewRel :=
              (List.mem_insertionSort reviewRel).2 hr
            have hpr : (fun r : Review => r.submitted_at.isSome) r = true := by
              simp [hrt]
            have hrel := find?_min_of_pairwise _ _
              (List.sorted_insertionSort reviewRel reviews) fr hfind r hrs hpr
            rw [reviewRel] at hrel
            rw [reviewLe, hfrsub, hrt] at hrel
            simpa [optKeyLe] using hrel
          · have httz : fra.tz = some 0 := hrtz fr hfrmem2 fra hfrsub
            rcases hfr0 : fra with ⟨tw, ttz⟩
            rw [hfr0] at httz
            rcases hcc : pr.created_at with ⟨cw, ctz⟩
            rw [hcc] at hctz hsub
            simp only at httz hctz
            subst httz
            subst hctz
            rw [hfr0] at hsub
            simp only [dtSub, Except.ok.injEq] at hsub
            rw [← hm]
            simp only [hfr0, hcc]
            rw [← hsub]
            norm_num

/-- Witness for C2's general clause, instantiated at the concrete
scenario. -/
theorem aggregation_correct_witness :
    (∃ r ∈ [revAlice, revBob], r.submitted_at = some dtAliceAt)
      ∧ (∀ r ∈ [revAlice, revBob], ∀ t, r.submitted_at = some t
          → dtAliceAt.wall ≤ t.wall)
      ∧ some (5 : ℚ)
          = some (((dtAliceAt.wall - prOne.created_at.wall : Int) : ℚ) / 3600) :=
  aggregation_correct.2 prOne [revAlice, revBob]
    { pr_number := 1, title := "PR one", created_at := dtCreated,
      first_review_at := some dtAliceAt, time_to_first_review_hours := some 5 }
    [("alice", 5), ("bob", 10)] dtAliceAt
    (by decide) (by decide) (by decide) (by decide)

/-! ## Mid-run failure durability -/

/-- The review-acquisition step never touches the `pull_requests` table. -/
theorem getReviewsStep_ok_prRows (fetch : Nat → Except Unit (List Review))
    (now : DT) (db : DB) (pr : PR) :
    ∀ rs db2 b, getReviewsStep fetch now db pr = .ok (rs, db2, b) →
      db2.prRows = db.prRows := by
  intro rs db2 b h
  by_cases hs : (pr.state == "closed") = true
  · by_cases hemp : (get_reviews_from_db db pr.number).isEmpty = true
    · cases hf : fetch pr.number with
      | error e => simp [getReviewsStep, hs, hemp, hf] at h
      | ok rs2 =>
        simp only [getReviewsStep, hs, hemp, hf, if_true, Except.ok.injEq,
          Prod.mk.injEq] at h
        rw [← h.2.1]
        simp [save_reviews_to_db]
    · have hemp' : (get_reviews_from_db db pr.number).isEmpty = false := by
        simpa using hemp
      simp only [getReviewsStep, hs, hemp', Bool.false_eq_true, if_true,
        if_false, Except.ok.injEq, Prod.mk.injEq] at h
      rw [← h.2.1]
  · have hs' : (pr.state == "closed") = false := by simpa using hs
    cases hf : fetch pr.number with
    | error e => simp [getReviewsStep, hs', hf] at h
    | ok rs2 =>
      simp only [getReviewsStep, hs', Bool.false_eq_true, if_false, hf,
        Except.ok.injEq, Prod.mk.injEq] at h
      rw [← h.2.1]
      simp [save_reviews_to_db]

/-- One loop iteration leaves the `pull_requests` table unchanged. -/
theorem stepDB_prRows (fetch : Nat → Except Unit (List Review)) (now : DT)
    (db : DB) (pr : PR) : (stepDB fetch now db pr).prRows = db.prRows := by
  rw [stepDB]
  cases hg : getReviewsStep fetch now db pr with
  | error e => rfl
  | ok v =>
    obtain ⟨rs, db2, b⟩ := v
    exact getReviewsStep_ok_prRows fetch now db pr rs db2 b hg

/-- Any number of loop iterations leaves the `pull_requests` table
unchanged. -/
theorem foldl_stepDB_prRows (fetch : Nat → Except Unit (List Review))
    (now : DT) : ∀ (l : List PR) (db : DB),
    (l.foldl (stepDB fetch now) db).prRows = db.prRows := by
  intro l
  induction l with
  | nil => intro db; rfl
  | cons pr rest ih =>
    intro db
    rw [List.foldl_cons, ih, stepDB_prRows]

/-- When the main loop aborts, the store it leaves behind is exactly the
per-PR commits of a processed prefix of the loop's input. -/
theorem reviewLoop_error_prefix (fetch : Nat → Except Unit (List Review))
    (now : DT) : ∀ (l : List PR) (db : DB) (ms : List PRMetric)
      (cs : List (String × ℚ)) (e : Unit),
    (reviewLoop fetch now l db ms cs).2 = .error e →
    ∃ k, (reviewLoop fetch now l db ms cs).1
        = (l.take k).foldl (stepDB fetch now) db := by
  intro l
  induction l with
  | nil => intro db ms cs e h; simp [reviewLoop] at h
  | cons pr rest ih =>
    intro db ms cs e h
    cases hg : getReviewsStep fetch now db pr with
    | error e2 =>
      refine ⟨0, ?_⟩
      simp [reviewLoop, hg]
    | ok v =>
      obtain ⟨rs, db2, b⟩ := v
      have hstep : stepDB fetch now db pr = db2 := by simp [stepDB, hg]
      cases hp : processPR pr rs with
      | error e2 =>
        refine ⟨1, ?_⟩
        simp [reviewLoop, hg, hp, hstep]
      | ok mc =>
        obtain ⟨m, contribs⟩ := mc
        have h2 : (reviewLoop fetch now rest db2 (ms ++ [m])
            (cs ++ contribs)).2 = .error e := by
          simpa [reviewLoop, hg, hp] using h
        obtain ⟨k, hk⟩ := ih db2 (ms ++ [m]) (cs ++ contribs) e h2
        refine ⟨k + 1, ?_⟩
        simp [reviewLoop, hg, hp, List.take_succ_cons, List.foldl_cons, hstep, hk]

/-- C7.  A failure partway through a `get_stats` run propagates (the run
ends in `.error`), and the store it leaves behind holds every PR upsert
of the run (the whole `pull_requests` state equals the post-upsert state,
as the review loop never alters it) and exactly the review replacements
committed for the prefix of filtered PRs processed before the failure:
each iteration's write is committed immediately by `stepDB`, so a later
PR's failure rolls nothing back. -/
theorem run_error_keeps_commits (prs : List PR)
    (fetchR : Nat → Except Unit (List Review)) (from_date to_date : Option DT)
    (now : DT) (db0 : DB) (e : Unit)
    (h : (get_stats_model (.ok prs) fetchR from_date to_date now db0).2
        = .error e) :
    ∃ (l : List PR) (k : Nat),
      (applyDateFilter from_date to_date now prs = .ok l ∨ l = [])
      ∧ (get_stats_model (.ok prs) fetchR from_date to_date now db0).1
          = (l.take k).foldl (stepDB fetchR now) (upsertAll db0 prs now)
      ∧ ((get_stats_model (.ok prs) fetchR from_date to_date now db0).1).prRows
          = (upsertAll db0 prs now).prRows := by
  cases hfil : applyDateFilter from_date to_date now prs with
  | error e2 =>
    refine ⟨[], 0, Or.inr rfl, ?_, ?_⟩ <;> simp [get_stats_model, hfil]
  | ok filtered =>
    have h2 : (reviewLoop fetchR now filtered (upsertAll db0 prs now) [] []).2
        = .error e := by
      simpa [get_stats_model, hfil] using h
    obtain ⟨k, hk⟩ := reviewLoop_error_prefix fetchR now filtered
      (upsertAll db0 prs now) [] [] e h2
    have hmain : (get_stats_model (.ok prs) fetchR from_date to_date now db0).1
        = (filtered.take k).foldl (stepDB fetchR now) (upsertAll db0 prs now) := by
      simpa [get_stats_model, hfil] using hk
    refine ⟨filtered, k, Or.inl rfl, hmain, ?_⟩
    rw [hmain, foldl_stepDB_prRows]

/-- Witness for C7: two open PRs, the second PR's review fetch fails; the
run errors but the committed state of the first PR persists. -/
theorem run_error_keeps_commits_witness :
    ∃ (l : List PR) (k : Nat),
      (applyDateFilter none none dtZero [prOpen1, prOpen2] = .ok l ∨ l = [])
      ∧ (get_stats_model (.ok [prOpen1, prOpen2]) fetchFail2 none none dtZero
            emptyDB).1
          = (l.take k).foldl (stepDB fetchFail2 dtZero)
              (upsertAll emptyDB [prOpen1, prOpen2] dtZero)
      ∧ ((get_stats_model (.ok [prOpen1, prOpen2]) fetchFail2 none none dtZero
            emptyDB).1).prRows
          = (upsertAll emptyDB [prOpen1, prOpen2] dtZero).prRows :=
  run_error_keeps_commits [prOpen1, prOpen2] fetchFail2 none none dtZero
    emptyDB () (by decide)

/-! ## Timezone handling -/

/-- Counterexample to C8 as stated: a payload `created_at` lacking
timezone info is NOT treated as UTC where it is compared with a bound —
the run raises (Python `TypeError` from the naive/aware comparison)
instead, while the same PR with `created_at` read as UTC passes the
filter. -/
theorem naive_payload_not_utc_cex :
    applyDateFilter (some ⟨0, some 0⟩) none ⟨100, some 0⟩ [prNaive]
      = .error ()
    ∧ applyDateFilter (some ⟨0, some 0⟩) none ⟨100, some 0⟩ [prNaiveAsUtc]
      = .ok [prNaiveAsUtc] :=
  ⟨by decide, by decide⟩

/-- C8 amended.  Only the `from`/`to` bounds lacking timezone info are
treated as UTC (they are normalized before filtering, so a naive bound
behaves exactly like the same instant marked UTC).  Payload
`created_at`/`submitted_at` timestamps keep their parsed offset and are
never coerced: one lacking timezone info compared against an aware bound
raises an error that aborts the run, and only a naive/naive pair
subtracts as if both were UTC. -/
theorem tz_handling_amended :
    (∀ (b : DT) (to_date : Option DT) (now : DT) (prs : List PR),
        b.tz = none →
        applyDateFilter (some b) to_date now prs
          = applyDateFilter (some ⟨b.wall, some 0⟩) to_date now prs)
    ∧ (∀ (b : DT) (from_date : Option DT) (now : DT) (prs : List PR),
        b.tz = none →
        applyDateFilter from_date (some b) now prs
          = applyDateFilter from_date (some ⟨b.wall, some 0⟩) now prs)
    ∧ (∀ (f c : DT) (toDt : Option DT), f.tz.isSome → c.tz = none →
        prPasses (some f) toDt c = .error ())
    ∧ (∀ a b : DT, a.tz = none → b.tz = none →
        dtSub a b = .ok (a.wall - b.wall)) := by
  refine ⟨?_, ?_, ?_, ?_⟩
  · intro b to_date now prs hb
    rcases b with ⟨w, btz⟩
    simp only at hb
    subst hb
    cases to_date <;> simp [applyDateFilter, effFrom, effTo, normTz]
  · intro b from_date now prs hb
    rcases b with ⟨w, btz⟩
    simp only at hb
    subst hb
    simp [applyDateFilter, effFrom, effTo, normTz]
  · intro f c toDt hf hc
    rcases f with ⟨fw, ftz⟩
    cases ftz with
    | none => simp at hf
    | some o =>
      rcases c with ⟨cw, ctz⟩
      simp only at hc
      subst hc
      rfl
  · intro a b ha hb
    rcases a with ⟨aw, atz⟩
    rcases b with ⟨bw, btz⟩
    simp only at ha hb
    subst ha
    subst hb
    rfl

/-- Witness for the amended C8: each clause at concrete inputs. -/
theorem tz_handling_amended_witness :
    applyDateFilter (some ⟨100, none⟩) none ⟨200, some 0⟩ [prMid]
      = applyDateFilter (some ⟨100, some 0⟩) none ⟨200, some 0⟩ [prMid]
    ∧ applyDateFilter none (some ⟨100, none⟩) ⟨200, some 0⟩ [prMid]
      = applyDateFilter none (some ⟨100, some 0⟩) ⟨200, some 0⟩ [prMid]
    ∧ prPasses (some ⟨0, some 0⟩) none ⟨0, none⟩ = .error ()
    ∧ dtSub ⟨5, none⟩ ⟨2, none⟩ = .ok 3 :=
  ⟨tz_handling_amended.1 ⟨100, none⟩ none ⟨200, some 0⟩ [prMid] rfl,
   tz_handling_amended.2.1 ⟨100, none⟩ none ⟨200, some 0⟩ [prMid] rfl,
   tz_handling_amended.2.2.1 ⟨0, some 0⟩ ⟨0, none⟩ none (by decide) rfl,
   tz_handling_amended.2.2.2 ⟨5, none⟩ ⟨2, none⟩ rfl rfl⟩
